import Mathlib

/-!
Shallow embedding of the algo-trade repository core in Lean 4.

JS numbers are modelled as exact rationals (ℚ); JS `null`/`undefined`
results are modelled as `Option`; JS objects used as string-keyed maps are
modelled as association lists; mutation is modelled by explicit state
passing, with methods returning the updated state (and, where the JS
method has a return value, that value as well). `Math.sqrt` is modelled as
an abstract function parameter, since no claim depends on its values.
-/

/-! ## Indicator Library (indicators.js) -/

namespace Indicators

/-- SMA from indicators.js: arithmetic mean of the trailing `period`
values, `null` for indices `i < period - 1`.  The JS inner loop sums
`data[i-period+1 .. i]`, i.e. `take period` of `drop (i + 1 - period)`. -/
def SMA (data : List ℚ) (period : ℕ) : List (Option ℚ) :=
  (List.range data.length).map fun i =>
    if i < period - 1 then none
    else some (((data.drop (i + 1 - period)).take period).sum / period)

/-- Loop of EMA from indicators.js over the remaining indices, carrying the
running `ema` accumulator (`null` until seeded by the SMA of the first full
window). -/
def emaGo (data : List ℚ) (k : ℚ) (period : ℕ) : Option ℚ → List ℕ → List (Option ℚ)
  | _, [] => []
  | st, i :: rest =>
    if i < period - 1 then none :: emaGo data k period st rest
    else
      match st with
      | none =>
          let e := ((data.drop (i + 1 - period)).take period).sum / period
          some e :: emaGo data k period (some e) rest
      | some e0 =>
          let e := data.getD i 0 * k + e0 * (1 - k)
          some e :: emaGo data k period (some e) rest

/-- EMA from indicators.js: seeded by the SMA of the first full window,
then the recurrence `ema = price*k + ema*(1-k)` with `k = 2/(period+1)`. -/
def EMA (data : List ℚ) (period : ℕ) : List (Option ℚ) :=
  emaGo data (2 / ((period : ℚ) + 1)) period none (List.range data.length)

/-- One output entry of the RSI loop: the pushed result together with the
values of the `gains`/`losses` accumulators right after processing the
index (the values used to compute that entry's `rs`). -/
structure RsiEntry where
  res : Option ℚ
  gains : ℚ
  losses : ℚ
  deriving DecidableEq

/-- Body of the RSI loop from indicators.js for indices `i ≥ 1`: `prev` is
`closes[i-1]`, `gains`/`losses` are the accumulators entering index `i`.
For `i ≤ period` gains/losses accumulate raw sums (divided by `period` at
`i = period`); afterwards Wilder smoothing applies.  `rs` is `100` when the
average loss is zero, else `gains / losses`. -/
def rsiGo (period : ℕ) : ℚ → ℚ → ℚ → ℕ → List ℚ → List RsiEntry
  | _, _, _, _, [] => []
  | prev, gains, losses, i, c :: rest =>
    let change := c - prev
    if i ≤ period then
      let g := gains + (if 0 < change then change else 0)
      let l := losses + (if change < 0 then -change else 0)
      if i < period then ⟨none, g, l⟩ :: rsiGo period c g l (i + 1) rest
      else
        let g' := g / period
        let l' := l / period
        let rs := if l' = 0 then 100 else g' / l'
        ⟨some (100 - 100 / (1 + rs)), g', l'⟩ :: rsiGo period c g' l' (i + 1) rest
    else
      let g := (gains * ((period : ℚ) - 1) + (if 0 < change then change else 0)) / period
      let l := (losses * ((period : ℚ) - 1) + (if change < 0 then -change else 0)) / period
      let rs := if l = 0 then 100 else g / l
      ⟨some (100 - 100 / (1 + rs)), g, l⟩ :: rsiGo period c g l (i + 1) rest

/-- Full RSI loop trace: index 0 pushes `null` with the accumulators still
at 0, then `rsiGo` handles indices `1, 2, ...`. -/
def rsiTrace (closes : List ℚ) (period : ℕ) : List RsiEntry :=
  match closes with
  | [] => []
  | c :: rest => ⟨none, 0, 0⟩ :: rsiGo period c 0 0 1 rest

/-- RSI from indicators.js: the result entries of the loop trace. -/
def RSI (closes : List ℚ) (period : ℕ) : List (Option ℚ) :=
  (rsiTrace closes period).map (·.res)

/-- Result record of BollingerBands from indicators.js. -/
structure BBands where
  upper : List (Option ℚ)
  middle : List (Option ℚ)
  lower : List (Option ℚ)

/-- BollingerBands from indicators.js: SMA as the middle band, the upper
and lower bands offset by `mult` population standard deviations of the
trailing window.  `msqrt` abstracts `Math.sqrt`. -/
def BollingerBands (msqrt : ℚ → ℚ) (closes : List ℚ) (period : ℕ) (mult : ℚ) : BBands :=
  let sma := SMA closes period
  let rows := (List.range closes.length).map fun i =>
    match sma.getD i none with
    | none => (none, none, none)
    | some m =>
        let variance := (((closes.drop (i + 1 - period)).take period).map (fun c => (c - m) ^ 2)).sum
        let std := msqrt (variance / period)
        (some (m + mult * std), some m, some (m - mult * std))
  ⟨rows.map (·.1), rows.map (·.2.1), rows.map (·.2.2)⟩

end Indicators

/-! ## Portfolio Ledger (portfolio.js) -/

/-- A holdings-map entry: `{ qty, avgCost }`. -/
structure Holding where
  qty : ℚ
  avgCost : ℚ
  deriving DecidableEq

/-- A trade record.  `pnl` is present (`some`) exactly on SELL trades; the
JS `time: Date.now()` field is wall-clock and is omitted. -/
structure Trade where
  id : ℕ
  symbol : String
  side : String
  qty : ℚ
  price : ℚ
  total : ℚ
  pnl : Option ℚ
  day : ℕ
  tick : ℕ
  deriving DecidableEq

/-- Portfolio state (the fields of the Portfolio class). -/
structure Portfolio where
  name : String
  startingCash : ℚ
  cash : ℚ
  holdings : List (String × Holding)
  trades : List Trade
  tradeId : ℕ
  peakValue : ℚ
  maxDrawdown : ℚ
  dailyReturns : List ℚ
  prevValue : ℚ
  deriving DecidableEq

/-- Lookup in the holdings map (`this.holdings[symbol]`). -/
def lookupHolding : List (String × Holding) → String → Option Holding
  | [], _ => none
  | (s, h) :: rest, sym => if s = sym then some h else lookupHolding rest sym

/-- Write a holdings-map key (`this.holdings[symbol] = h`): replaces the
binding if present, appends it otherwise. -/
def setHolding : List (String × Holding) → String → Holding → List (String × Holding)
  | [], sym, h => [(sym, h)]
  | (s, h0) :: rest, sym, h =>
    if s = sym then (s, h) :: rest else (s, h0) :: setHolding rest sym h

/-- Remove a holdings-map key (`delete this.holdings[symbol]`). -/
def removeHolding : List (String × Holding) → String → List (String × Holding)
  | [], _ => []
  | (s, h) :: rest, sym => if s = sym then rest else (s, h) :: removeHolding rest sym

/-- Total cost basis of a holdings map: the sum of `qty * avgCost` over its
entries. -/
def costBasisSum (hs : List (String × Holding)) : ℚ :=
  (hs.map fun sh => sh.2.qty * sh.2.avgCost).sum

namespace Portfolio

/-- The Portfolio constructor (`new Portfolio(name, cash)`). -/
def init (name : String) (cash : ℚ) : Portfolio :=
  { name := name
    startingCash := cash
    cash := cash
    holdings := []
    trades := []
    tradeId := 0
    peakValue := cash
    maxDrawdown := 0
    dailyReturns := []
    prevValue := cash }

/-- Portfolio.buy from portfolio.js.  If `qty*price` exceeds cash, `qty` is
clamped to `Math.floor(cash / price)`; if the clamped quantity is ≤ 0 the
method returns `null` (modelled as `(unchanged state, none)`).  Otherwise
cash is debited, the holding's average cost is re-blended, and a BUY trade
record is appended and returned. -/
def buy (p : Portfolio) (symbol : String) (qty price : ℚ) (day tick : ℕ) :
    Portfolio × Option Trade :=
  let cost := qty * price
  let q : ℚ := if p.cash < cost then ((⌊p.cash / price⌋ : ℤ) : ℚ) else qty
  if p.cash < cost ∧ q ≤ 0 then (p, none)
  else
    let totalCost := q * price
    let h := (lookupHolding p.holdings symbol).getD ⟨0, 0⟩
    let newTotal := h.qty + q
    let newH : Holding := ⟨newTotal, (h.avgCost * h.qty + totalCost) / newTotal⟩
    let trade : Trade :=
      ⟨p.tradeId + 1, symbol, "BUY", q, price, totalCost, none, day, tick⟩
    ({ p with
        cash := p.cash - totalCost
        holdings := setHolding p.holdings symbol newH
        trades := p.trades ++ [trade]
        tradeId := p.tradeId + 1 }, some trade)

/-- Portfolio.sell from portfolio.js.  Returns `null` (no state change) if
the symbol is not held, held with qty ≤ 0, or the clamped quantity is ≤ 0;
otherwise credits revenue, records realized P&L against average cost,
removes the holding when fully liquidated, and appends a SELL record. -/
def sell (p : Portfolio) (symbol : String) (qty price : ℚ) (day tick : ℕ) :
    Portfolio × Option Trade :=
  match lookupHolding p.holdings symbol with
  | none => (p, none)
  | some h =>
    if h.qty ≤ 0 then (p, none)
    else
      let q := min qty h.qty
      if q ≤ 0 then (p, none)
      else
        let revenue := q * price
        let costBasis := q * h.avgCost
        let pnl := revenue - costBasis
        let newQty := h.qty - q
        let holdings' :=
          if newQty ≤ 0 then removeHolding p.holdings symbol
          else setHolding p.holdings symbol ⟨newQty, h.avgCost⟩
        let trade : Trade :=
          ⟨p.tradeId + 1, symbol, "SELL", q, price, revenue, some pnl, day, tick⟩
        ({ p with
            cash := p.cash + revenue
            holdings := holdings'
            trades := p.trades ++ [trade]
            tradeId := p.tradeId + 1 }, some trade)

/-- Portfolio.totalValue: cash plus mark-to-market of all holdings; a
missing price is `0` in JS (`marketPrices[sym] || 0`), so prices are a
total map. -/
def totalValue (p : Portfolio) (prices : String → ℚ) : ℚ :=
  p.cash + (p.holdings.map (fun sh => sh.2.qty * prices sh.1)).sum

/-- Portfolio.updateMetrics: raise the peak, fold the current drawdown into
`maxDrawdown` if larger, append the period return when the previous value
was positive, and remember the current value. -/
def updateMetrics (p : Portfolio) (prices : String → ℚ) : Portfolio :=
  let val := p.totalValue prices
  let peak := if p.peakValue < val then val else p.peakValue
  let dd := if 0 < peak then ((peak - val) / peak) * 100 else 0
  let maxDD := if p.maxDrawdown < dd then dd else p.maxDrawdown
  let returns :=
    if 0 < p.prevValue then p.dailyReturns ++ [(val - p.prevValue) / p.prevValue]
    else p.dailyReturns
  { p with peakValue := peak, maxDrawdown := maxDD, dailyReturns := returns, prevValue := val }

/-- Book value: cash plus the cost basis (`qty * avgCost`) of every
holding. -/
def bookValue (p : Portfolio) : ℚ :=
  p.cash + costBasisSum p.holdings

end Portfolio

/-- Sum of the recorded `pnl` fields (present exactly on SELL trades),
as in Portfolio.realizedPnL. -/
def sellPnlSum (ts : List Trade) : ℚ :=
  (ts.filterMap (·.pnl)).sum

/-- A buy or sell invocation, with the JS call arguments. -/
inductive TradeOp where
  | buyOp (symbol : String) (qty price : ℚ) (day tick : ℕ)
  | sellOp (symbol : String) (qty price : ℚ) (day tick : ℕ)
  deriving DecidableEq

/-- The `qty` argument of an operation. -/
def TradeOp.qtyArg : TradeOp → ℚ
  | .buyOp _ q _ _ _ => q
  | .sellOp _ q _ _ _ => q

/-- The `price` argument of an operation. -/
def TradeOp.priceArg : TradeOp → ℚ
  | .buyOp _ _ pr _ _ => pr
  | .sellOp _ _ pr _ _ => pr

/-- Apply one buy/sell call to the portfolio, keeping the updated state. -/
def applyOp (p : Portfolio) : TradeOp → Portfolio
  | .buyOp s q pr d t => (p.buy s q pr d t).1
  | .sellOp s q pr d t => (p.sell s q pr d t).1

/-- Apply a sequence of buy/sell calls in order. -/
def applyOps (p : Portfolio) (ops : List TradeOp) : Portfolio :=
  ops.foldl applyOp p

/-! ## Decision Engine candidate selection (ai-engine.js / app.js) -/

/-- A scored candidate move as produced by the strategy generators. -/
structure Candidate where
  action : String
  symbol : String
  qty : ℚ
  strategy : String
  score : ℚ
  deriving DecidableEq

/-- The chosen outcome of one evaluation cycle: execute a candidate trade,
or hold. -/
inductive Decision where
  | trade (c : Candidate)
  | hold
  deriving DecidableEq

/-- Shared selection step: sort candidates by score descending
(`candidates.sort((a, b) => b.score - a.score)`), then take the top
candidate when its score strictly exceeds the conviction threshold. -/
def pickBest (threshold : ℚ) (cands : List Candidate) : Option Candidate :=
  match (cands.mergeSort fun a b => b.score ≤ a.score).head? with
  | some b => if threshold < b.score then some b else none
  | none => none

namespace AIEngine

/-- AIEngine.evaluate's pick step (ai-engine.js): execute the best
candidate when `best.score > 0.1`, otherwise the chosen action is the HOLD
record and `_executeTrade` is not called. -/
def decide (cands : List Candidate) : Decision :=
  match pickBest (1 / 10) cands with
  | some b => .trade b
  | none => .hold

end AIEngine

namespace App

/-- App._evaluateRealAI's pick step (app.js, historical replay): execute
`candidates[0]` when `candidates.length > 0 && candidates[0].score > 0.5`,
otherwise no trade is attempted. -/
def realDecide (cands : List Candidate) : Decision :=
  match pickBest (1 / 2) cands with
  | some b => .trade b
  | none => .hold

end App

/-! ## Market Simulator scheduling (market.js) -/

namespace MarketEngine

/-- The constructor constant `this.baseInterval = 385` (ms per tick at 1x). -/
def baseInterval : ℚ := 385

/-- The MarketEngine `_schedule` step: nothing is scheduled while paused;
otherwise the timer delay is `Math.max(10, this.baseInterval / this.speed)`. -/
def schedule (paused : Bool) (speed : ℚ) : Option ℚ :=
  if paused then none else some (max 10 (baseInterval / speed))

end MarketEngine

/-! ## Replay Driver (real-market.js) -/

/-- One OHLCV bar.  The JS field name `open` is a Lean keyword, so the
open/high/low fields are shortened to `op`/`hi`/`lo`. -/
structure Candle where
  op : ℚ
  hi : ℚ
  lo : ℚ
  close : ℚ
  volume : ℚ
  date : String
  deriving DecidableEq, Inhabited

/-- Symbol metadata copied from a successful history fetch. -/
structure SymbolInfo where
  symbol : String
  currency : String
  exchange : String
  instrumentType : String
  regularMarketPrice : ℚ
  previousClose : ℚ
  deriving DecidableEq

/-- Payload of a successful `/api/yahoo/history` response. -/
structure YahooData where
  symbol : String
  currency : String
  exchange : String
  instrumentType : String
  regularMarketPrice : ℚ
  previousClose : ℚ
  candles : List Candle
  deriving DecidableEq

/-- Outcome of the awaited fetch inside loadSymbol: a parsed payload, or a
thrown/HTTP error with its message. -/
inductive FetchResult where
  | ok (data : YahooData)
  | fail (msg : String)
  deriving DecidableEq

/-- Signals emitted by RealMarketEngine (payloads reduced to the fields the
claims mention). -/
inductive REvt where
  | loading
  | loaded
  | error (msg : String)
  | tick (tick day : ℕ)
  | dayClose (day : ℕ)
  | play
  | pause
  | complete
  | reset
  deriving DecidableEq

/-- RealMarketEngine state.  `intervalId` is modelled as a flag recording
whether a timer callback is currently scheduled. -/
structure RMState where
  symbol : String
  symbolInfo : Option SymbolInfo
  candles : List Candle
  replayIndex : ℕ
  replayCandles : List Candle
  paused : Bool
  speed : ℚ
  intervalId : Bool
  loading : Bool
  error : Option String
  range : String
  day : ℕ
  tick : ℕ
  deriving DecidableEq

namespace RealMarketEngine

/-- The constructor constant `this.baseInterval = 800` (ms per candle at 1x). -/
def baseInterval : ℚ := 800

/-- The RealMarketEngine constructor state. -/
def initState : RMState :=
  { symbol := "AAPL"
    symbolInfo := none
    candles := []
    replayIndex := 0
    replayCandles := []
    paused := true
    speed := 1
    intervalId := false
    loading := false
    error := none
    range := "1y"
    day := 0
    tick := 0 }

/-- RealMarketEngine.pause: set paused, clear any scheduled timer, emit
the pause signal. -/
def pauseEngine (s : RMState) : RMState × List REvt :=
  ({ s with paused := true, intervalId := false }, [REvt.pause])

/-- RealMarketEngine._advanceReplay: reveal one candle, stamp day/tick,
emit tick and dayClose, and advance the replay position (no-op when the
replay position is at the end). -/
def advanceReplay (s : RMState) : RMState × List REvt :=
  if s.candles.length ≤ s.replayIndex then (s, [])
  else
    let candle := s.candles.getD s.replayIndex default
    ({ s with
        replayCandles := s.replayCandles ++ [candle]
        day := s.replayIndex
        tick := s.tick + 1
        replayIndex := s.replayIndex + 1 },
     [REvt.tick (s.tick + 1) s.replayIndex, REvt.dayClose s.replayIndex])

/-- RealMarketEngine.play: no-op when already playing, when no series is
loaded (`this.candles.length === 0`), or when the replay has completed;
otherwise clear paused, schedule the timer, and emit the play signal. -/
def play (s : RMState) : RMState × List REvt :=
  if s.paused = false then (s, [])
  else if s.candles.isEmpty then (s, [])
  else if s.candles.length ≤ s.replayIndex then (s, [])
  else ({ s with paused := false, intervalId := true }, [REvt.play])

/-- RealMarketEngine.loadSymbol, resumed after the awaited fetch with
outcome `result`: pause, enter the loading state, then either install the
fetched series and reveal its first candle, or (on a fetch failure or an
empty candle list) record the error message and emit the error signal
without touching the replay state. -/
def loadSymbol (s : RMState) (symbol range : String) (result : FetchResult) :
    RMState × List REvt :=
  let s0 := (pauseEngine s).1
  let s1 := { s0 with loading := true, error := none, symbol := symbol.toUpper, range := range }
  let pre := [REvt.pause, REvt.loading]
  match result with
  | .fail msg => ({ s1 with loading := false, error := some msg }, pre ++ [REvt.error msg])
  | .ok data =>
    if data.candles.isEmpty then
      ({ s1 with loading := false, error := some "No historical data available" },
       pre ++ [REvt.error "No historical data available"])
    else
      let s2 := { s1 with
        symbolInfo := some ⟨data.symbol, data.currency, data.exchange, data.instrumentType,
          data.regularMarketPrice, data.previousClose⟩
        candles := data.candles
        replayIndex := 0
        replayCandles := []
        day := 0
        tick := 0
        loading := false }
      let r := advanceReplay s2
      (r.1, pre ++ [REvt.loaded] ++ r.2)

end RealMarketEngine

/-! ## Theorems -/

/-- C1: for a Portfolio with starting cash 10000, buy(symbol, 10, 100, day,
tick) leaves cash = 9000 and the holding {qty:10, avgCost:100}, and a
subsequent sell(symbol, 5, 120, day, tick) leaves cash = 9600, records
realized P&L = 100 on the SELL trade, and leaves the holding
{qty:5, avgCost:100}. -/
theorem C1_buy_sell_scenario :
    ((Portfolio.init "AI" 10000).buy "NOVA" 10 100 0 0).1.cash = 9000 ∧
    lookupHolding ((Portfolio.init "AI" 10000).buy "NOVA" 10 100 0 0).1.holdings "NOVA"
      = some ⟨10, 100⟩ ∧
    (((Portfolio.init "AI" 10000).buy "NOVA" 10 100 0 0).1.sell "NOVA" 5 120 0 1).1.cash
      = 9600 ∧
    ((((Portfolio.init "AI" 10000).buy "NOVA" 10 100 0 0).1.sell "NOVA" 5 120 0 1).2.map
        (·.pnl)) = some (some 100) ∧
    lookupHolding
        (((Portfolio.init "AI" 10000).buy "NOVA" 10 100 0 0).1.sell "NOVA" 5 120 0 1).1.holdings
        "NOVA"
      = some ⟨5, 100⟩ := by
  norm_num [Portfolio.init, Portfolio.buy, Portfolio.sell, lookupHolding, setHolding,
    removeHolding]

/-- C6: for every Portfolio and every updateMetrics call (with an arbitrary
price map), the maxDrawdown field after the call is ≥ its value before the
call, hence monotonically non-decreasing across any sequence of calls. -/
theorem C6_maxdrawdown_monotone (p : Portfolio) (prices : String → ℚ) :
    p.maxDrawdown ≤ (p.updateMetrics prices).maxDrawdown := by
  unfold Portfolio.updateMetrics
  dsimp only
  split_ifs <;> linarith

/-- C9 counterexample: at speed multiplier 100 the Market Simulator's
scheduler delay is `Math.max(10, 385/100) = 10`, not
`baseInterval / speedMultiplier = 3.85`, so the claimed equality fails for
that positive speed. -/
theorem C9_counterexample :
    MarketEngine.schedule false 100 ≠ some (MarketEngine.baseInterval / 100) := by
  norm_num [MarketEngine.schedule, MarketEngine.baseInterval, max_def]

/-- C9 amended: whenever the Market Simulator is playing, the inter-tick
delay passed to the scheduler is `max 10 (baseInterval / speedMultiplier)`;
it equals `baseInterval / speedMultiplier` exactly when that quotient is at
least the 10 ms floor, i.e. for positive speeds ≤ 38.5. -/
theorem C9_schedule_delay (speed : ℚ) (h0 : 0 < speed) (h1 : speed ≤ 77 / 2) :
    MarketEngine.schedule false speed = some (MarketEngine.baseInterval / speed) := by
  unfold MarketEngine.schedule MarketEngine.baseInterval
  rw [if_neg (by simp)]
  congr 1
  apply max_eq_right
  rw [le_div_iff₀ h0]
  linarith

/-- C9 witness: at speed 7 the delay equals 385/7 = 55. -/
theorem C9_schedule_delay_witness :
    0 < (7 : ℚ) ∧ MarketEngine.schedule false 7 = some (MarketEngine.baseInterval / 7) :=
  ⟨by norm_num, C9_schedule_delay 7 (by norm_num) (by norm_num)⟩

/-- Helper: a candidate returned by pickBest beats the threshold and comes
from the candidate list. -/
theorem pickBest_eq_some {th : ℚ} {cands : List Candidate} {c : Candidate}
    (h : pickBest th cands = some c) : th < c.score ∧ c ∈ cands := by
  unfold pickBest at h
  cases hh : (cands.mergeSort fun a b => decide (b.score ≤ a.score)).head? with
  | none => rw [hh] at h; exact absurd h (by simp)
  | some b =>
      rw [hh] at h
      dsimp only at h
      split_ifs at h with ht
      · cases h
        exact ⟨ht, (List.mergeSort_perm cands _).mem_iff.mp
          (List.mem_of_mem_head? (Option.mem_def.mpr hh))⟩

/-- Helper: when no candidate beats the threshold, pickBest returns
nothing. -/
theorem pickBest_eq_none {th : ℚ} {cands : List Candidate}
    (h : ∀ c ∈ cands, c.score ≤ th) : pickBest th cands = none := by
  unfold pickBest
  cases hh : (cands.mergeSort fun a b => decide (b.score ≤ a.score)).head? with
  | none => rfl
  | some b =>
      have hb : b ∈ cands := (List.mergeSort_perm cands _).mem_iff.mp
        (List.mem_of_mem_head? (Option.mem_def.mpr hh))
      dsimp only
      rw [if_neg (not_lt.mpr (h b hb))]

/-- C4: in both the synthetic engine (threshold 0.1) and the
historical-replay evaluation (threshold 0.5), a trade is executed only for
a candidate from the list whose score strictly exceeds the threshold, and
when every candidate's score is ≤ the threshold the decision is HOLD. -/
theorem C4_conviction_threshold (cands : List Candidate) :
    (∀ c, AIEngine.decide cands = Decision.trade c → (1 : ℚ) / 10 < c.score ∧ c ∈ cands) ∧
    ((∀ c ∈ cands, c.score ≤ 1 / 10) → AIEngine.decide cands = Decision.hold) ∧
    (∀ c, App.realDecide cands = Decision.trade c → (1 : ℚ) / 2 < c.score ∧ c ∈ cands) ∧
    ((∀ c ∈ cands, c.score ≤ 1 / 2) → App.realDecide cands = Decision.hold) := by
  refine ⟨fun c hc => ?_, fun hall => ?_, fun c hc => ?_, fun hall => ?_⟩
  · unfold AIEngine.decide at hc
    cases hp : pickBest (1 / 10) cands with
    | none => rw [hp] at hc; exact absurd hc (by simp)
    | some b => rw [hp] at hc; cases hc; exact pickBest_eq_some hp
  · unfold AIEngine.decide
    rw [pickBest_eq_none hall]
  · unfold App.realDecide at hc
    cases hp : pickBest (1 / 2) cands with
    | none => rw [hp] at hc; exact absurd hc (by simp)
    | some b => rw [hp] at hc; cases hc; exact pickBest_eq_some hp
  · unfold App.realDecide
    rw [pickBest_eq_none hall]

/-- C4 witness: with no candidates both engines hold. -/
theorem C4_conviction_threshold_witness :
    AIEngine.decide [] = Decision.hold ∧ App.realDecide [] = Decision.hold :=
  ⟨(C4_conviction_threshold []).2.1 (by simp),
   (C4_conviction_threshold []).2.2.2 (by simp)⟩

/-- C7: for a positive requested quantity, buy returns null when the
quantity left after clamping to what cash affords is ≤ 0, and sell returns
null when the symbol is not held or is held with qty ≤ 0; in each
null-returning case the portfolio state (cash, holdings, trades) is
returned completely unchanged. -/
theorem C7_failed_trades_noop (p : Portfolio) (symbol : String) (qty price : ℚ)
    (day tick : ℕ) (hq : 0 < qty) :
    ((if p.cash < qty * price then ((⌊p.cash / price⌋ : ℤ) : ℚ) else qty) ≤ 0 →
      p.buy symbol qty price day tick = (p, none)) ∧
    (lookupHolding p.holdings symbol = none →
      p.sell symbol qty price day tick = (p, none)) ∧
    (∀ h, lookupHolding p.holdings symbol = some h → h.qty ≤ 0 →
      p.sell symbol qty price day tick = (p, none)) := by
  refine ⟨fun hle => ?_, fun hnone => ?_, fun h hsome hle => ?_⟩
  · unfold Portfolio.buy
    dsimp only
    by_cases hc : p.cash < qty * price
    · rw [if_pos hc] at hle
      rw [if_pos hc, if_pos ⟨hc, hle⟩]
    · rw [if_neg hc] at hle
      exact absurd hle (not_le.mpr hq)
  · unfold Portfolio.sell
    rw [hnone]
  · unfold Portfolio.sell
    rw [hsome]
    dsimp only
    rw [if_pos hle]

/-- C7 witness: with cash 50 a buy of 1 share at price 100 clamps to
`floor(50/100) = 0` and is rejected without state change, and a sell on an
unheld symbol is rejected without state change. -/
theorem C7_failed_trades_noop_witness :
    (0 : ℚ) < 1 ∧
    (Portfolio.init "AI" 50).buy "A" 1 100 0 0 = (Portfolio.init "AI" 50, none) ∧
    (Portfolio.init "AI" 50).sell "A" 1 100 0 0 = (Portfolio.init "AI" 50, none) :=
  ⟨by norm_num,
   (C7_failed_trades_noop (Portfolio.init "AI" 50) "A" 1 100 0 0 (by norm_num)).1
     (by norm_num [Portfolio.init]),
   (C7_failed_trades_noop (Portfolio.init "AI" 50) "A" 1 100 0 0 (by norm_num)).2.1 rfl⟩

/-- C8: when the Replay Driver's load completes with an empty historical
series, it records the error and emits exactly pause/loading/error signals
(so never a tick), leaves the previously loaded replay position, revealed
candles and series untouched, and play() on an empty series schedules
nothing. -/
theorem C8_empty_series_error (s : RMState) (symbol range : String) (data : YahooData)
    (hd : data.candles = []) :
    (RealMarketEngine.loadSymbol s symbol range (FetchResult.ok data)).1.error
      = some "No historical data available" ∧
    (RealMarketEngine.loadSymbol s symbol range (FetchResult.ok data)).2
      = [REvt.pause, REvt.loading, REvt.error "No historical data available"] ∧
    (RealMarketEngine.loadSymbol s symbol range (FetchResult.ok data)).1.replayIndex
      = s.replayIndex ∧
    (RealMarketEngine.loadSymbol s symbol range (FetchResult.ok data)).1.replayCandles
      = s.replayCandles ∧
    (RealMarketEngine.loadSymbol s symbol range (FetchResult.ok data)).1.candles
      = s.candles ∧
    (∀ t d, REvt.tick t d ∉ (RealMarketEngine.loadSymbol s symbol range (FetchResult.ok data)).2) ∧
    (∀ s2 : RMState, s2.candles = [] → RealMarketEngine.play s2 = (s2, [])) := by
  refine ⟨?_, ?_, ?_, ?_, ?_, ?_, ?_⟩
  all_goals first
    | (intro s2 h2
       by_cases hp : s2.paused = false <;>
         simp [RealMarketEngine.play, hp, h2])
    | simp [RealMarketEngine.loadSymbol, RealMarketEngine.pauseEngine, hd]

/-- Helper: an element of the holdings map after a write is the written
binding or an element of the old map. -/
theorem mem_setHolding {hs : List (String × Holding)} {sym : String} {h : Holding}
    {x : String × Holding} (hx : x ∈ setHolding hs sym h) : x = (sym, h) ∨ x ∈ hs := by
  induction hs with
  | nil =>
      simp only [setHolding, List.mem_singleton] at hx
      exact Or.inl hx
  | cons a rest ih =>
      obtain ⟨s, h0⟩ := a
      simp only [setHolding] at hx
      by_cases he : s = sym
      · rw [if_pos he] at hx
        rcases List.mem_cons.mp hx with h1 | h1
        · exact Or.inl (by rw [h1, he])
        · exact Or.inr (List.mem_cons_of_mem _ h1)
      · rw [if_neg he] at hx
        rcases List.mem_cons.mp hx with h1 | h1
        · exact Or.inr (h1 ▸ List.mem_cons_self _ _)
        · rcases ih h1 with h2 | h2
          · exact Or.inl h2
          · exact Or.inr (List.mem_cons_of_mem _ h2)

/-- Helper: deleting a key keeps a subset of the holdings map. -/
theorem mem_removeHolding {hs : List (String × Holding)} {sym : String}
    {x : String × Holding} (hx : x ∈ removeHolding hs sym) : x ∈ hs := by
  induction hs with
  | nil => simp [removeHolding] at hx
  | cons a rest ih =>
      obtain ⟨s, h0⟩ := a
      simp only [removeHolding] at hx
      by_cases he : s = sym
      · rw [if_pos he] at hx
        exact List.mem_cons_of_mem _ hx
      · rw [if_neg he] at hx
        rcases List.mem_cons.mp hx with h1 | h1
        · exact h1 ▸ List.mem_cons_self _ _
        · exact List.mem_cons_of_mem _ (ih h1)

/-- Helper: a successful holdings lookup comes from the map. -/
theorem lookupHolding_some {hs : List (String × Holding)} {sym : String} {h : Holding}
    (hl : lookupHolding hs sym = some h) : (sym, h) ∈ hs := by
  induction hs with
  | nil => simp [lookupHolding] at hl
  | cons a rest ih =>
      obtain ⟨s, h0⟩ := a
      simp only [lookupHolding] at hl
      by_cases he : s = sym
      · rw [if_pos he] at hl
        injection hl with hh
        subst hh
        subst he
        exact List.mem_cons_self _ _
      · rw [if_neg he] at hl
        exact List.mem_cons_of_mem _ (ih hl)

/-- Helper: the default-or-looked-up holding has nonnegative quantity when
every holding in the map does. -/
theorem lookup_getD_qty_nonneg {p : Portfolio} (hh : ∀ sh ∈ p.holdings, 0 ≤ sh.2.qty)
    (symbol : String) : 0 ≤ ((lookupHolding p.holdings symbol).getD ⟨0, 0⟩).qty := by
  cases hl : lookupHolding p.holdings symbol with
  | none => simp [Holding.qty]
  | some h => simpa using hh _ (lookupHolding_some hl)

/-- Helper: buy keeps cash ≥ 0 and all holding quantities ≥ 0, for a
nonnegative requested quantity (the clamp bounds spending by cash in the
unaffordable branch, and by the affordability test otherwise). -/
theorem buy_state_nonneg (p : Portfolio) (hcash : 0 ≤ p.cash)
    (hh : ∀ sh ∈ p.holdings, 0 ≤ sh.2.qty) (symbol : String) (qty price : ℚ)
    (day tick : ℕ) (hq : 0 ≤ qty) :
    0 ≤ (p.buy symbol qty price day tick).1.cash ∧
    ∀ sh ∈ (p.buy symbol qty price day tick).1.holdings, 0 ≤ sh.2.qty := by
  have hdef := lookup_getD_qty_nonneg hh symbol
  unfold Portfolio.buy
  dsimp only
  by_cases hc : p.cash < qty * price
  · have hprice : 0 < price := by nlinarith
    by_cases hq0 : ((⌊p.cash / price⌋ : ℤ) : ℚ) ≤ 0
    · rw [if_pos hc, if_pos ⟨hc, hq0⟩]
      exact ⟨hcash, hh⟩
    · push_neg at hq0
      rw [if_pos hc, if_neg (fun hand => absurd hand.2 (not_le.mpr hq0))]
      dsimp only
      constructor
      · have h1 : ((⌊p.cash / price⌋ : ℤ) : ℚ) ≤ p.cash / price := Int.floor_le _
        have h2 : ((⌊p.cash / price⌋ : ℤ) : ℚ) * price ≤ p.cash / price * price :=
          mul_le_mul_of_nonneg_right h1 (le_of_lt hprice)
        rw [div_mul_cancel₀ _ (ne_of_gt hprice)] at h2
        linarith
      · intro sh hsh
        rcases mem_setHolding hsh with h1 | h1
        · rw [h1]; dsimp only; linarith
        · exact hh _ h1
  · rw [if_neg hc, if_neg (fun hand => absurd hand.1 hc)]
    push_neg at hc
    dsimp only
    constructor
    · linarith
    · intro sh hsh
      rcases mem_setHolding hsh with h1 | h1
      · rw [h1]; dsimp only; linarith
      · exact hh _ h1

/-- Helper: sell keeps cash ≥ 0 and all holding quantities ≥ 0 for a
nonnegative price (the quantity clamp never sells more than is held). -/
theorem sell_state_nonneg (p : Portfolio) (hcash : 0 ≤ p.cash)
    (hh : ∀ sh ∈ p.holdings, 0 ≤ sh.2.qty) (symbol : String) (qty price : ℚ)
    (day tick : ℕ) (hp : 0 ≤ price) :
    0 ≤ (p.sell symbol qty price day tick).1.cash ∧
    ∀ sh ∈ (p.sell symbol qty price day tick).1.holdings, 0 ≤ sh.2.qty := by
  unfold Portfolio.sell
  cases hl : lookupHolding p.holdings symbol with
  | none => exact ⟨hcash, hh⟩
  | some h =>
      dsimp only
      by_cases hh0 : h.qty ≤ 0
      · rw [if_pos hh0]; exact ⟨hcash, hh⟩
      · rw [if_neg hh0]
        by_cases hq0 : min qty h.qty ≤ 0
        · rw [if_pos hq0]; exact ⟨hcash, hh⟩
        · rw [if_neg hq0]
          push_neg at hq0
          dsimp only
          constructor
          · have hrev : 0 ≤ min qty h.qty * price := mul_nonneg (le_of_lt hq0) hp
            linarith
          · intro sh hsh
            by_cases hdel : h.qty - min qty h.qty ≤ 0
            · rw [if_pos hdel] at hsh
              exact hh _ (mem_removeHolding hsh)
            · rw [if_neg hdel] at hsh
              rcases mem_setHolding hsh with h1 | h1
              · rw [h1]; dsimp only; linarith
              · exact hh _ h1

/-- Helper: applyOps unfolds one step at a time. -/
theorem applyOps_cons (p : Portfolio) (op : TradeOp) (ops : List TradeOp) :
    applyOps p (op :: ops) = applyOps (applyOp p op) ops := by
  simp [applyOps]

/-- Helper: the nonnegativity invariant is preserved by any sequence of
buy/sell calls with nonnegative quantity and price arguments. -/
theorem applyOps_state_nonneg (p : Portfolio) (hcash : 0 ≤ p.cash)
    (hh : ∀ sh ∈ p.holdings, 0 ≤ sh.2.qty) (ops : List TradeOp)
    (hops : ∀ op ∈ ops, 0 ≤ op.qtyArg ∧ 0 ≤ op.priceArg) :
    0 ≤ (applyOps p ops).cash ∧ ∀ sh ∈ (applyOps p ops).holdings, 0 ≤ sh.2.qty := by
  induction ops generalizing p with
  | nil => exact ⟨hcash, hh⟩
  | cons op rest ih =>
      have h1 := hops op (List.mem_cons_self _ _)
      have hrest : ∀ o ∈ rest, 0 ≤ o.qtyArg ∧ 0 ≤ o.priceArg :=
        fun o ho => hops o (List.mem_cons_of_mem _ ho)
      rw [applyOps_cons]
      cases op with
      | buyOp s q pr d t =>
          have hb := buy_state_nonneg p hcash hh s q pr d t h1.1
          exact ih _ hb.1 hb.2 hrest
      | sellOp s q pr d t =>
          have hs := sell_state_nonneg p hcash hh s q pr d t h1.2
          exact ih _ hs.1 hs.2 hrest

/-- C2: for every sequence of buy and sell calls (with nonnegative quantity
and price arguments) applied to a Portfolio starting from its initial state
with nonnegative starting cash, every holding quantity stays ≥ 0 and cash
stays ≥ 0: buy clamps the quantity to what cash affords and sell clamps the
quantity to the held quantity. -/
theorem C2_nonneg_invariant (name : String) (c : ℚ) (ops : List TradeOp) (hc : 0 ≤ c)
    (hops : ∀ op ∈ ops, 0 ≤ op.qtyArg ∧ 0 ≤ op.priceArg) :
    0 ≤ (applyOps (Portfolio.init name c) ops).cash ∧
    ∀ sh ∈ (applyOps (Portfolio.init name c) ops).holdings, 0 ≤ sh.2.qty :=
  applyOps_state_nonneg (Portfolio.init name c) hc (by simp [Portfolio.init]) ops hops

/-- C2 witness: a concrete run from starting cash 10000. -/
theorem C2_nonneg_invariant_witness :
    0 ≤ (applyOps (Portfolio.init "AI" 10000)
          [TradeOp.buyOp "A" 5 100 0 0, TradeOp.sellOp "A" 2 120 0 1]).cash ∧
    ∀ sh ∈ (applyOps (Portfolio.init "AI" 10000)
          [TradeOp.buyOp "A" 5 100 0 0, TradeOp.sellOp "A" 2 120 0 1]).holdings,
      0 ≤ sh.2.qty :=
  C2_nonneg_invariant "AI" 10000 [TradeOp.buyOp "A" 5 100 0 0, TradeOp.sellOp "A" 2 120 0 1]
    (by norm_num)
    (by
      intro op hop
      rcases List.mem_cons.mp hop with h1 | h1
      · subst h1; exact ⟨by norm_num [TradeOp.qtyArg], by norm_num [TradeOp.priceArg]⟩
      · simp only [List.mem_singleton] at h1
        subst h1; exact ⟨by norm_num [TradeOp.qtyArg], by norm_num [TradeOp.priceArg]⟩)

/-- Helper: cost-basis sum of a one-entry extension. -/
theorem costBasisSum_cons (s : String) (h0 : Holding) (t : List (String × Holding)) :
    costBasisSum ((s, h0) :: t) = h0.qty * h0.avgCost + costBasisSum t := by
  simp [costBasisSum]

/-- Helper: writing a key changes the cost-basis sum by the new entry's
cost basis minus the overwritten (or zero default) one. -/
theorem costBasisSum_set (hs : List (String × Holding)) (sym : String) (h : Holding) :
    costBasisSum (setHolding hs sym h)
      = costBasisSum hs
        - ((lookupHolding hs sym).getD ⟨0, 0⟩).qty
            * ((lookupHolding hs sym).getD ⟨0, 0⟩).avgCost
        + h.qty * h.avgCost := by
  induction hs with
  | nil =>
      simp only [setHolding, lookupHolding, costBasisSum_cons]
      simp [costBasisSum, Holding.qty, Holding.avgCost]
  | cons a rest ih =>
      obtain ⟨s, h0⟩ := a
      by_cases he : s = sym
      · simp only [setHolding, lookupHolding, if_pos he, costBasisSum_cons, Option.getD_some]
        ring
      · simp only [setHolding, lookupHolding, if_neg he, costBasisSum_cons, ih]
        ring

/-- Helper: deleting a present key removes exactly its cost basis from the
sum. -/
theorem costBasisSum_remove (hs : List (String × Holding)) (sym : String) (h : Holding)
    (hl : lookupHolding hs sym = some h) :
    costBasisSum (removeHolding hs sym) = costBasisSum hs - h.qty * h.avgCost := by
  induction hs with
  | nil => simp [lookupHolding] at hl
  | cons a rest ih =>
      obtain ⟨s, h0⟩ := a
      by_cases he : s = sym
      · simp only [lookupHolding, if_pos he, Option.some.injEq] at hl
        subst hl
        simp only [removeHolding, if_pos he, costBasisSum_cons]
        ring
      · simp only [lookupHolding, if_neg he] at hl
        simp only [removeHolding, if_neg he, costBasisSum_cons, ih hl]
        ring

/-- Helper: appending one trade adds its recorded pnl (or nothing). -/
theorem sellPnlSum_append (ts : List Trade) (t : Trade) :
    sellPnlSum (ts ++ [t]) = sellPnlSum ts + t.pnl.getD 0 := by
  simp only [sellPnlSum, List.filterMap_append]
  cases hp : t.pnl <;> simp [hp]

/-- Helper: buy leaves `bookValue - sellPnlSum` and startingCash unchanged
and keeps holding quantities nonnegative, for a positive requested
quantity. -/
theorem buy_book_invariant (p : Portfolio) (hh : ∀ sh ∈ p.holdings, 0 ≤ sh.2.qty)
    (symbol : String) (qty price : ℚ) (day tick : ℕ) (hq : 0 < qty) :
    Portfolio.bookValue (p.buy symbol qty price day tick).1
        - sellPnlSum (p.buy symbol qty price day tick).1.trades
      = Portfolio.bookValue p - sellPnlSum p.trades ∧
    (p.buy symbol qty price day tick).1.startingCash = p.startingCash ∧
    ∀ sh ∈ (p.buy symbol qty price day tick).1.holdings, 0 ≤ sh.2.qty := by
  have hdef := lookup_getD_qty_nonneg hh symbol
  unfold Portfolio.buy
  dsimp only
  by_cases hc : p.cash < qty * price
  · by_cases hq0 : ((⌊p.cash / price⌋ : ℤ) : ℚ) ≤ 0
    · rw [if_pos hc, if_pos ⟨hc, hq0⟩]
      exact ⟨rfl, rfl, hh⟩
    · push_neg at hq0
      rw [if_pos hc, if_neg (fun hand => absurd hand.2 (not_le.mpr hq0))]
      dsimp only
      refine ⟨?_, rfl, ?_⟩
      · have hnt : ((lookupHolding p.holdings symbol).getD ⟨0, 0⟩).qty
            + ((⌊p.cash / price⌋ : ℤ) : ℚ) ≠ 0 := by positivity
        unfold Portfolio.bookValue
        dsimp only
        rw [costBasisSum_set, sellPnlSum_append]
        dsimp only
        rw [Option.getD_none]
        field_simp
        ring
      · intro sh hsh
        rcases mem_setHolding hsh with h1 | h1
        · rw [h1]; dsimp only; linarith
        · exact hh _ h1
  · rw [if_neg hc, if_neg (fun hand => absurd hand.1 hc)]
    dsimp only
    refine ⟨?_, rfl, ?_⟩
    · have hnt : ((lookupHolding p.holdings symbol).getD ⟨0, 0⟩).qty + qty ≠ 0 := by positivity
      unfold Portfolio.bookValue
      dsimp only
      rw [costBasisSum_set, sellPnlSum_append]
      dsimp only
      rw [Option.getD_none]
      field_simp
      ring
    · intro sh hsh
      rcases mem_setHolding hsh with h1 | h1
      · rw [h1]; dsimp only; linarith
      · exact hh _ h1

/-- Helper: sell changes the book value by exactly the realized P&L it
records, leaves startingCash unchanged, and keeps holding quantities
nonnegative. -/
theorem sell_book_invariant (p : Portfolio) (hh : ∀ sh ∈ p.holdings, 0 ≤ sh.2.qty)
    (symbol : String) (qty price : ℚ) (day tick : ℕ) :
    Portfolio.bookValue (p.sell symbol qty price day tick).1
        - sellPnlSum (p.sell symbol qty price day tick).1.trades
      = Portfolio.bookValue p - sellPnlSum p.trades ∧
    (p.sell symbol qty price day tick).1.startingCash = p.startingCash ∧
    ∀ sh ∈ (p.sell symbol qty price day tick).1.holdings, 0 ≤ sh.2.qty := by
  unfold Portfolio.sell
  cases hl : lookupHolding p.holdings symbol with
  | none => exact ⟨rfl, rfl, hh⟩
  | some h =>
      dsimp only
      by_cases hh0 : h.qty ≤ 0
      · rw [if_pos hh0]; exact ⟨rfl, rfl, hh⟩
      · rw [if_neg hh0]
        by_cases hq0 : min qty h.qty ≤ 0
        · rw [if_pos hq0]; exact ⟨rfl, rfl, hh⟩
        · rw [if_neg hq0]
          push_neg at hq0
          dsimp only
          refine ⟨?_, rfl, ?_⟩
          · unfold Portfolio.bookValue
            dsimp only
            rw [sellPnlSum_append]
            dsimp only
            rw [Option.getD_some]
            by_cases hdel : h.qty - min qty h.qty ≤ 0
            · have hqe : min qty h.qty = h.qty :=
                le_antisymm (min_le_right _ _) (by linarith)
              rw [if_pos hdel, costBasisSum_remove p.holdings symbol h hl, hqe]
              ring
            · rw [if_neg hdel, costBasisSum_set, hl]
              dsimp only [Option.getD_some]
              ring
          · intro sh hsh
            by_cases hdel : h.qty - min qty h.qty ≤ 0
            · rw [if_pos hdel] at hsh
              exact hh _ (mem_removeHolding hsh)
            · rw [if_neg hdel] at hsh
              rcases mem_setHolding hsh with h1 | h1
              · rw [h1]; dsimp only; linarith
              · exact hh _ h1

/-- Helper: `bookValue - sellPnlSum` and startingCash are preserved by any
sequence of buy/sell calls with positive quantity arguments. -/
theorem applyOps_book (p : Portfolio) (hh : ∀ sh ∈ p.holdings, 0 ≤ sh.2.qty)
    (ops : List TradeOp) (hops : ∀ op ∈ ops, 0 < op.qtyArg) :
    Portfolio.bookValue (applyOps p ops) - sellPnlSum (applyOps p ops).trades
        = Portfolio.bookValue p - sellPnlSum p.trades ∧
    (applyOps p ops).startingCash = p.startingCash ∧
    ∀ sh ∈ (applyOps p ops).holdings, 0 ≤ sh.2.qty := by
  induction ops generalizing p with
  | nil => exact ⟨rfl, rfl, hh⟩
  | cons op rest ih =>
      have h1 := hops op (List.mem_cons_self _ _)
      have hrest : ∀ o ∈ rest, 0 < o.qtyArg := fun o ho => hops o (List.mem_cons_of_mem _ ho)
      rw [applyOps_cons]
      cases op with
      | buyOp s q pr d t =>
          have hb := buy_book_invariant p hh s q pr d t h1
          have hi := ih _ hb.2.2 hrest
          exact ⟨hi.1.trans hb.1, hi.2.1.trans hb.2.1, hi.2.2⟩
      | sellOp s q pr d t =>
          have hs := sell_book_invariant p hh s q pr d t
          have hi := ih _ hs.2.2 hrest
          exact ⟨hi.1.trans hs.1, hi.2.1.trans hs.2.1, hi.2.2⟩

/-- C10: for every sequence of buy and sell calls with positive quantity
arguments applied from the initial state, cash plus the cost basis of all
holdings equals startingCash plus the sum of the pnl values recorded on
SELL trades: each buy moves exactly `qty * price` from cash into cost
basis, and each sell changes the book value by exactly the realized P&L it
records. -/
theorem C10_accounting_identity (name : String) (c : ℚ) (ops : List TradeOp)
    (hops : ∀ op ∈ ops, 0 < op.qtyArg) :
    Portfolio.bookValue (applyOps (Portfolio.init name c) ops)
      = (applyOps (Portfolio.init name c) ops).startingCash
        + sellPnlSum (applyOps (Portfolio.init name c) ops).trades := by
  have h := applyOps_book (Portfolio.init name c) (by simp [Portfolio.init]) ops hops
  have hbase : Portfolio.bookValue (Portfolio.init name c) = c := by
    simp [Portfolio.bookValue, Portfolio.init, costBasisSum]
  have hpnl : sellPnlSum (Portfolio.init name c).trades = 0 := by
    simp [Portfolio.init, sellPnlSum]
  have hsc : (applyOps (Portfolio.init name c) ops).startingCash = c := by
    rw [h.2.1]; rfl
  rw [hsc]
  have := h.1
  rw [hbase, hpnl] at this
  linarith

/-- C10 witness: a concrete buy-then-sell run from starting cash 10000. -/
theorem C10_accounting_identity_witness :
    Portfolio.bookValue (applyOps (Portfolio.init "AI" 10000)
        [TradeOp.buyOp "A" 10 100 0 0, TradeOp.sellOp "A" 5 120 0 1])
      = (applyOps (Portfolio.init "AI" 10000)
          [TradeOp.buyOp "A" 10 100 0 0, TradeOp.sellOp "A" 5 120 0 1]).startingCash
        + sellPnlSum (applyOps (Portfolio.init "AI" 10000)
            [TradeOp.buyOp "A" 10 100 0 0, TradeOp.sellOp "A" 5 120 0 1]).trades :=
  C10_accounting_identity "AI" 10000 [TradeOp.buyOp "A" 10 100 0 0, TradeOp.sellOp "A" 5 120 0 1]
    (by
      intro op hop
      rcases List.mem_cons.mp hop with h1 | h1
      · subst h1; norm_num [TradeOp.qtyArg]
      · simp only [List.mem_singleton] at h1
        subst h1; norm_num [TradeOp.qtyArg])

/-- Helper: every defined entry of the RSI loop whose losses accumulator is
zero carries the value `100 - 100/(1+100) = 10000/101`. -/
theorem rsiGo_zero_loss (period : ℕ) (rest : List ℚ) :
    ∀ (prev gains losses : ℚ) (i : ℕ) (e : Indicators.RsiEntry),
      e ∈ Indicators.rsiGo period prev gains losses i rest →
      ∀ v : ℚ, e.res = some v → e.losses = 0 → v = 10000 / 101 := by
  induction rest with
  | nil =>
      intro prev gains losses i e he v hres hloss
      simp [Indicators.rsiGo] at he
  | cons c rest ih =>
      intro prev gains losses i e he v hres hloss
      simp only [Indicators.rsiGo] at he
      by_cases h1 : i ≤ period
      · rw [if_pos h1] at he
        by_cases h2 : i < period
        · rw [if_pos h2] at he
          rcases List.mem_cons.mp he with h0 | hmem
          · subst h0; exact absurd hres (by simp)
          · exact ih _ _ _ _ _ hmem v hres hloss
        · rw [if_neg h2] at he
          rcases List.mem_cons.mp he with h0 | hmem
          · subst h0
            dsimp only at hres hloss
            rw [if_pos hloss] at hres
            injection hres with hv
            rw [← hv]
            norm_num
          · exact ih _ _ _ _ _ hmem v hres hloss
      · rw [if_neg h1] at he
        rcases List.mem_cons.mp he with h0 | hmem
        · subst h0
          dsimp only at hres hloss
          rw [if_pos hloss] at hres
          injection hres with hv
          rw [← hv]
          norm_num
        · exact ih _ _ _ _ _ hmem v hres hloss

/-- Helper: lift the zero-loss value fact to the full RSI trace. -/
theorem rsiTrace_zero_loss (closes : List ℚ) (period : ℕ) (e : Indicators.RsiEntry)
    (he : e ∈ Indicators.rsiTrace closes period) (v : ℚ) (hres : e.res = some v)
    (hloss : e.losses = 0) : v = 10000 / 101 := by
  cases closes with
  | nil => simp [Indicators.rsiTrace] at he
  | cons c rest =>
      simp only [Indicators.rsiTrace] at he
      rcases List.mem_cons.mp he with h0 | hmem
      · subst h0; exact absurd hres (by simp)
      · exact rsiGo_zero_loss period rest c 0 0 1 e hmem v hres hloss

/-- C3 counterexample: on closes [1,2,3] with period 2, at index 2 the RSI
is defined with smoothed average loss 0, yet its value is
`100 - 100/(1+100) = 10000/101 ≈ 99.0099`, not 100 (the code caps `rs` at
100 instead of returning 100). -/
theorem C3_counterexample :
    (Indicators.rsiTrace [1, 2, 3] 2).get? 2 = some ⟨some (10000 / 101), 1, 0⟩ ∧
    (Indicators.RSI [1, 2, 3] 2).get? 2 = some (some (10000 / 101)) ∧
    (10000 / 101 : ℚ) ≠ 100 := by
  refine ⟨?_, ?_, by norm_num⟩ <;>
    norm_num [Indicators.rsiTrace, Indicators.rsiGo, Indicators.RSI]

/-- C3 amended: at every index where RSI is defined and the smoothed
average loss at that index is zero, the RSI value equals
`100 - 100/(1+100) = 10000/101` (the implementation substitutes `rs = 100`
for the infinite relative strength), not 100. -/
theorem C3_rsi_zero_loss_value (closes : List ℚ) (period : ℕ) (i : ℕ)
    (e : Indicators.RsiEntry) (hget : (Indicators.rsiTrace closes period).get? i = some e)
    (v : ℚ) (hres : e.res = some v) (hloss : e.losses = 0) :
    (Indicators.RSI closes period).get? i = some (some v) ∧ v = 10000 / 101 := by
  constructor
  · unfold Indicators.RSI
    rw [List.get?_map, hget, Option.map_some', hres]
  · exact rsiTrace_zero_loss closes period e (List.get?_mem hget) v hres hloss

/-- C3 witness: the amended value law evaluated at closes [1,2,3],
period 2, index 2. -/
theorem C3_rsi_zero_loss_value_witness :
    (Indicators.RSI [1, 2, 3] 2).get? 2 = some (some (10000 / 101)) ∧
    (10000 / 101 : ℚ) = 10000 / 101 :=
  C3_rsi_zero_loss_value [1, 2, 3] 2 2 ⟨some (10000 / 101), 1, 0⟩
    (by norm_num [Indicators.rsiTrace, Indicators.rsiGo]) (10000 / 101) rfl rfl

/-- Helper: the SMA entry at an in-range index. -/
theorem SMA_get? (data : List ℚ) (period : ℕ) (i : ℕ) (hi : i < data.length) :
    (Indicators.SMA data period).get? i
      = some (if i < period - 1 then none
          else some (((data.drop (i + 1 - period)).take period).sum / period)) := by
  unfold Indicators.SMA
  rw [List.get?_map, List.get?_range hi]
  rfl

/-- Helper: SMA output length. -/
theorem SMA_length (data : List ℚ) (period : ℕ) :
    (Indicators.SMA data period).length = data.length := by
  simp [Indicators.SMA]

/-- Helper: SMA null positions are exactly the warm-up indices. -/
theorem SMA_get?_none_iff (data : List ℚ) (period : ℕ) (i : ℕ) (hi : i < data.length) :
    ((Indicators.SMA data period).get? i = some none) ↔ i < period - 1 := by
  rw [SMA_get? data period i hi]
  by_cases h : i < period - 1 <;> simp [h]

/-- Helper: the EMA loop produces one entry per index. -/
theorem emaGo_length (data : List ℚ) (k : ℚ) (period : ℕ) :
    ∀ (idxs : List ℕ) (st : Option ℚ),
      (Indicators.emaGo data k period st idxs).length = idxs.length := by
  intro idxs
  induction idxs with
  | nil => intro st; rfl
  | cons a rest ih =>
      intro st
      simp only [Indicators.emaGo]
      by_cases h : a < period - 1
      · rw [if_pos h]; simp [ih]
      · rw [if_neg h]
        cases st <;> simp [ih]

/-- Helper: an EMA loop entry is null exactly when its index is before the
warm-up, regardless of the accumulator state. -/
theorem emaGo_get?_none_iff (data : List ℚ) (k : ℚ) (period : ℕ) :
    ∀ (idxs : List ℕ) (st : Option ℚ) (j i : ℕ), idxs.get? j = some i →
      (((Indicators.emaGo data k period st idxs).get? j = some none) ↔ i < period - 1) := by
  intro idxs
  induction idxs with
  | nil => intro st j i hj; simp at hj
  | cons a rest ih =>
      intro st j i hj
      cases j with
      | zero =>
          rw [List.get?_cons_zero] at hj
          injection hj with hai
          subst hai
          simp only [Indicators.emaGo]
          by_cases h : a < period - 1
          · rw [if_pos h]; simp [h]
          · rw [if_neg h]
            cases st with
            | none => simp [h]
            | some e0 => simp [h]
      | succ j' =>
          rw [List.get?_cons_succ] at hj
          simp only [Indicators.emaGo]
          by_cases h : a < period - 1
          · rw [if_pos h]
            simpa using ih st j' i hj
          · rw [if_neg h]
            cases st with
            | none => simpa using ih _ j' i hj
            | some e0 => simpa using ih _ j' i hj

/-- Helper: EMA output length. -/
theorem EMA_length (data : List ℚ) (period : ℕ) :
    (Indicators.EMA data period).length = data.length := by
  unfold Indicators.EMA
  rw [emaGo_length]
  exact List.length_range _

/-- Helper: EMA null positions are exactly the warm-up indices. -/
theorem EMA_get?_none_iff (data : List ℚ) (period : ℕ) (i : ℕ) (hi : i < data.length) :
    ((Indicators.EMA data period).get? i = some none) ↔ i < period - 1 :=
  emaGo_get?_none_iff data _ period (List.range data.length) none i i (List.get?_range hi)

/-- Helper: the RSI loop produces one entry per remaining close. -/
theorem rsiGo_length (period : ℕ) :
    ∀ (rest : List ℚ) (prev gains losses : ℚ) (i : ℕ),
      (Indicators.rsiGo period prev gains losses i rest).length = rest.length := by
  intro rest
  induction rest with
  | nil => intro prev g l i; rfl
  | cons c t ih =>
      intro prev g l i
      simp only [Indicators.rsiGo]
      split_ifs <;> simp [ih]

/-- Helper: an RSI loop entry at offset j from start index i is null
exactly when `i + j < period`. -/
theorem rsiGo_get?_res_none_iff (period : ℕ) :
    ∀ (rest : List ℚ) (prev gains losses : ℚ) (i j : ℕ) (e : Indicators.RsiEntry),
      (Indicators.rsiGo period prev gains losses i rest).get? j = some e →
      (e.res = none ↔ i + j < period) := by
  intro rest
  induction rest with
  | nil => intro prev g l i j e hg; simp [Indicators.rsiGo] at hg
  | cons c t ih =>
      intro prev g l i j e hg
      simp only [Indicators.rsiGo] at hg
      cases j with
      | zero =>
          by_cases h1 : i ≤ period
          · rw [if_pos h1] at hg
            by_cases h2 : i < period
            · rw [if_pos h2, List.get?_cons_zero] at hg
              injection hg with he
              subst he
              simp [h2]
            · rw [if_neg h2, List.get?_cons_zero] at hg
              injection hg with he
              subst he
              simpa using h2
          · rw [if_neg h1, List.get?_cons_zero] at hg
            injection hg with he
            subst he
            simpa using fun h => h1 (le_of_lt h)
      | succ j' =>
          have harith : i + 1 + j' < period ↔ i + (j' + 1) < period := by omega
          by_cases h1 : i ≤ period
          · rw [if_pos h1] at hg
            by_cases h2 : i < period
            · rw [if_pos h2, List.get?_cons_succ] at hg
              rw [← harith]
              exact ih _ _ _ _ _ _ hg
            · rw [if_neg h2, List.get?_cons_succ] at hg
              rw [← harith]
              exact ih _ _ _ _ _ _ hg
          · rw [if_neg h1, List.get?_cons_succ] at hg
            rw [← harith]
            exact ih _ _ _ _ _ _ hg

/-- Helper: RSI output length. -/
theorem RSI_length (closes : List ℚ) (period : ℕ) :
    (Indicators.RSI closes period).length = closes.length := by
  unfold Indicators.RSI Indicators.rsiTrace
  cases closes with
  | nil => rfl
  | cons c rest => simp [rsiGo_length]

/-- Helper: RSI null positions are exactly the indices < period (the first
value appears at index period). -/
theorem RSI_get?_none_iff (closes : List ℚ) (period : ℕ) (hp : 1 ≤ period) (i : ℕ)
    (hi : i < closes.length) :
    ((Indicators.RSI closes period).get? i = some none) ↔ i < period := by
  unfold Indicators.RSI Indicators.rsiTrace
  cases closes with
  | nil => simp at hi
  | cons c rest =>
      cases i with
      | zero =>
          simp only [List.map_cons, List.get?_cons_zero]
          simpa using hp
      | succ j =>
          rw [List.get?_map, List.get?_cons_succ]
          cases hg : (Indicators.rsiGo period c 0 0 1 rest).get? j with
          | none =>
              exfalso
              have hlen := List.get?_eq_none.mp hg
              rw [rsiGo_length] at hlen
              simp only [List.length_cons] at hi
              omega
          | some e =>
              have hr := rsiGo_get?_res_none_iff period rest c 0 0 1 j e hg
              simp only [Option.map_some', Option.some.injEq]
              rw [hr]
              omega

/-- Helper: Bollinger Bands output lengths. -/
theorem BB_lengths (msqrt : ℚ → ℚ) (closes : List ℚ) (period : ℕ) (mult : ℚ) :
    (Indicators.BollingerBands msqrt closes period mult).upper.length = closes.length ∧
    (Indicators.BollingerBands msqrt closes period mult).middle.length = closes.length ∧
    (Indicators.BollingerBands msqrt closes period mult).lower.length = closes.length := by
  refine ⟨?_, ?_, ?_⟩ <;> simp [Indicators.BollingerBands]

/-- Helper: all three Bollinger bands are null exactly where the underlying
SMA is, i.e. at the warm-up indices. -/
theorem BB_get?_none_iff (msqrt : ℚ → ℚ) (closes : List ℚ) (period : ℕ) (mult : ℚ)
    (i : ℕ) (hi : i < closes.length) :
    (((Indicators.BollingerBands msqrt closes period mult).upper.get? i = some none)
        ↔ i < period - 1) ∧
    (((Indicators.BollingerBands msqrt closes period mult).middle.get? i = some none)
        ↔ i < period - 1) ∧
    (((Indicators.BollingerBands msqrt closes period mult).lower.get? i = some none)
        ↔ i < period - 1) := by
  unfold Indicators.BollingerBands
  dsimp only
  have hd : (Indicators.SMA closes period).getD i none
      = if i < period - 1 then none
        else some (((closes.drop (i + 1 - period)).take period).sum / period) := by
    rw [List.getD_eq_getD_get?, SMA_get? closes period i hi, Option.getD_some]
  refine ⟨?_, ?_, ?_⟩ <;>
    · rw [List.get?_map, List.get?_map, List.get?_range hi]
      simp only [Option.map_some']
      rw [hd]
      by_cases h : i < period - 1 <;> simp [h]

/-- C5: for every input sequence and every period ≥ 1, SMA, EMA, RSI and
the three Bollinger Band outputs have the same length as the input and are
null exactly at the indices before the warm-up period (< period−1 for
SMA/EMA/Bollinger, < period for RSI); in particular an input shorter than
the warm-up yields an all-null result rather than an error. -/
theorem C5_warmup_null_structure (msqrt : ℚ → ℚ) (data : List ℚ) (period : ℕ) (mult : ℚ)
    (hp : 1 ≤ period) :
    (Indicators.SMA data period).length = data.length ∧
    (Indicators.EMA data period).length = data.length ∧
    (Indicators.RSI data period).length = data.length ∧
    (Indicators.BollingerBands msqrt data period mult).upper.length = data.length ∧
    (Indicators.BollingerBands msqrt data period mult).middle.length = data.length ∧
    (Indicators.BollingerBands msqrt data period mult).lower.length = data.length ∧
    ∀ i, i < data.length →
      (((Indicators.SMA data period).get? i = some none) ↔ i < period - 1) ∧
      (((Indicators.EMA data period).get? i = some none) ↔ i < period - 1) ∧
      (((Indicators.RSI data period).get? i = some none) ↔ i < period) ∧
      (((Indicators.BollingerBands msqrt data period mult).upper.get? i = some none)
          ↔ i < period - 1) ∧
      (((Indicators.BollingerBands msqrt data period mult).middle.get? i = some none)
          ↔ i < period - 1) ∧
      (((Indicators.BollingerBands msqrt data period mult).lower.get? i = some none)
          ↔ i < period - 1) :=
  ⟨SMA_length data period, EMA_length data period, RSI_length data period,
   (BB_lengths msqrt data period mult).1, (BB_lengths msqrt data period mult).2.1,
   (BB_lengths msqrt data period mult).2.2,
   fun i hi =>
     ⟨SMA_get?_none_iff data period i hi, EMA_get?_none_iff data period i hi,
      RSI_get?_none_iff data period hp i hi,
      (BB_get?_none_iff msqrt data period mult i hi).1,
      (BB_get?_none_iff msqrt data period mult i hi).2.1,
      (BB_get?_none_iff msqrt data period mult i hi).2.2⟩⟩

/-- C5 witness: the structure law instantiated at closes [1,2,3],
period 2. -/
theorem C5_warmup_null_structure_witness :
    (Indicators.SMA [1, 2, 3] 2).length = 3 ∧
    (Indicators.RSI [1, 2, 3] 2).length = 3 :=
  ⟨(C5_warmup_null_structure id [1, 2, 3] 2 2 (by norm_num)).1,
   (C5_warmup_null_structure id [1, 2, 3] 2 2 (by norm_num)).2.2.1⟩

/-- C8 witness: loading an empty series into a fresh engine records the
error, and play on the fresh (empty-series) engine is a no-op. -/
theorem C8_empty_series_error_witness :
    (RealMarketEngine.loadSymbol RealMarketEngine.initState "MSFT" "1y"
        (FetchResult.ok ⟨"MSFT", "USD", "NMS", "EQUITY", 0, 0, []⟩)).1.error
      = some "No historical data available" ∧
    RealMarketEngine.play RealMarketEngine.initState = (RealMarketEngine.initState, []) :=
  ⟨(C8_empty_series_error RealMarketEngine.initState "MSFT" "1y"
      ⟨"MSFT", "USD", "NMS", "EQUITY", 0, 0, []⟩ rfl).1,
   (C8_empty_series_error RealMarketEngine.initState "MSFT" "1y"
      ⟨"MSFT", "USD", "NMS", "EQUITY", 0, 0, []⟩ rfl).2.2.2.2.2.2
     RealMarketEngine.initState rfl⟩
